import Mathlib

/-!
# Verification of the web-monitor crawl pipeline

Shallow embedding of the job lifecycle, scan-counter computation, glob
pattern matcher, run-comparison engine, breadcrumb extraction and the
`deepMerge` settings helper of the repository, together with proofs and
refutations of the specification claims about them.

Conventions of the embedding:
* timestamps are `Nat` (milliseconds do not matter to any claim, only
  ordering and presence);
* SQL `NULL` / JS `undefined` fields are `Option`;
* database rows are structures, table updates are functions on them;
* JS string regex/JSON scanning is modelled at the level of the parsed
  values it produces (noted at each definition).
-/

namespace WebMonitor

/-! ## Job rows and the operations that mutate them

Transcribed from the `jobs` table operations:
`CrawlerService.triggerCrawl` / `cancelJob` / `retryFailedJob`,
`publishJobs` (GCP job-publisher), `RobustCrawler.updateJobStatus`
(GCP crawler service) and `maintainJobs` (GCP job-maintenance).
The `result` jsonb column and the identity/metadata columns are omitted:
no claim mentions them. -/

inductive JStatus where
  | queued | running | completed | failed | cancelled
deriving DecidableEq, Repr

structure Job where
  status : JStatus
  progress : Nat
  started_at : Option Nat
  completed_at : Option Nat
  retry_count : Nat
  max_retries : Nat
  error_message : Option String
deriving DecidableEq, Repr

/-- A job as inserted by `CrawlerService.triggerCrawl` (and by
`useScanRuns.triggerScan`): `status: 'queued', progress: 0`, with the
database defaults `retry_count = 0`, `max_retries = 3` and NULL
`started_at` / `completed_at` / `error_message` (migration
`20250620050522_small_wood.sql`). -/
def initialJob : Job :=
  { status := .queued
    progress := 0
    started_at := none
    completed_at := none
    retry_count := 0
    max_retries := 3
    error_message := none }

/-- Lease acquisition, from the GCP `job-publisher` function: the update
`{status: 'running', started_at: now, progress: 0}` guarded by
`.eq('status', 'queued')` (a non-queued row is left unchanged). -/
def leaseJob (now : Nat) (j : Job) : Job :=
  if j.status = .queued then
    { j with
      status := .running
      started_at := some now
      progress := 0 }
  else j

/-- `RobustCrawler.updateJobStatus`: sets status and progress;
`started_at` is set only when moving to `running` with no recorded start
time; `completed_at` is set on `completed` or `failed`; an error message
is stored only when one is passed (JS truthiness on a message string is
modelled by `Option`). -/
def updateJobStatus (now : Nat) (status : JStatus) (progress : Nat)
    (errorMessage : Option String) (j : Job) : Job :=
  { j with
    status := status
    progress := progress
    started_at :=
      if status = .running ∧ j.started_at = none then some now
      else j.started_at
    completed_at :=
      if status = .completed ∨ status = .failed then some now
      else j.completed_at
    error_message :=
      match errorMessage with
      | some m => some m
      | none => j.error_message }

/-- `CrawlerService.cancelJob`: update `{status: 'cancelled',
completed_at: now}` guarded by `.in('status', ['queued', 'running'])`. -/
def cancelJob (now : Nat) (j : Job) : Job :=
  if j.status = .queued ∨ j.status = .running then
    { j with
      status := .cancelled
      completed_at := some now }
  else j

/-- `CrawlerService.retryFailedJob`: throws (row untouched) when
`retry_count >= max_retries`; otherwise re-queues with
`retry_count + 1`, cleared error/timestamps and `progress = 0`, guarded
by `.eq('status', 'failed')` (a non-failed row is left unchanged and no
error is raised). -/
def retryFailedJob (j : Job) : Except String Job :=
  if j.retry_count ≥ j.max_retries then
    .error "Maximum retry attempts exceeded"
  else if j.status = .failed then
    .ok { j with
          status := .queued
          retry_count := j.retry_count + 1
          error_message := none
          started_at := none
          completed_at := none
          progress := 0 }
  else .ok j

/-- One job under the stuck-job step of `maintainJobs`: a `running` job
whose `started_at` is before `stuckCutoff` (`now` minus 2 hours in the
source) becomes `failed` with `completed_at = now` and the fixed error
message; `progress`, `started_at` and `retry_count` are not touched.
Rows with NULL `started_at` are not selected by the SQL filter
`lt('started_at', ...)`. -/
def reapOne (now stuckCutoff : Nat) (j : Job) : Job :=
  match j.started_at with
  | some t =>
      if j.status = .running ∧ t < stuckCutoff then
        { j with
          status := .failed
          completed_at := some now
          error_message := some "Job timed out after 2 hours" }
      else j
  | none => j

/-- Scan rows, as far as the claims need them (`scans` table). -/
structure ScanRow where
  status : JStatus
  completed_at : Option Nat
  total_pages : Nat
  new_pages : Nat
  changed_pages : Nat
  removed_pages : Nat
  error_pages : Nat
deriving DecidableEq, Repr

/-- The persistent state touched by the `job-maintenance` cloud
function: the `jobs` and `scans` tables. -/
structure MaintState where
  jobs : List Job
  scans : List ScanRow
deriving Repr

/-- `maintainJobs`: (1) reap stuck jobs, (2) delete terminal jobs whose
`completed_at` is before `oldCutoff` (`now` minus 30 days in the
source).  The function performs no update on the `scans` table. -/
def maintainJobs (now stuckCutoff oldCutoff : Nat) (st : MaintState) :
    MaintState :=
  let reaped := st.jobs.map (reapOne now stuckCutoff)
  let kept := reaped.filter (fun j =>
    !((j.status == .completed || j.status == .failed) &&
      (match j.completed_at with
       | some t => decide (t < oldCutoff)
       | none => false)))
  { jobs := kept, scans := st.scans }

/-- Progress reported between URL batches in
`RobustCrawler.processUrlsBatch`:
`Math.floor((processed / total) * 50) + 25`. -/
def batchProgress (processed total : Nat) : Nat :=
  processed * 50 / total + 25

/-- The job-mutating operations as the surrounding code invokes them.
Guards record the invocation context of the unguarded
`updateJobStatus`: `processJob` first moves the delivered job (queued,
or already flipped to running by the publisher's lease) to `running`
and issues all later status updates for that run while the job is
running; racing a cancellation into the middle of a live run is a
concurrency scenario outside this sequential model. -/
inductive JobStep : Job → Job → Prop where
  | lease (now : Nat) (j : Job) : JobStep j (leaseJob now j)
  | beginRun (now : Nat) (j : Job)
      (h : j.status = .queued ∨ j.status = .running) :
      JobStep j (updateJobStatus now .running 0 none j)
  | progDiscovery (now : Nat) (j : Job) (h : j.status = .running) :
      JobStep j (updateJobStatus now .running 25 none j)
  | progBatch (now processed total : Nat) (j : Job)
      (h : j.status = .running) (hp : processed ≤ total) (ht : 0 < total) :
      JobStep j
        (updateJobStatus now .running (batchProgress processed total) none j)
  | progPersist (now : Nat) (j : Job) (h : j.status = .running) :
      JobStep j (updateJobStatus now .running 75 none j)
  | complete (now : Nat) (j : Job) (h : j.status = .running) :
      JobStep j (updateJobStatus now .completed 100 none j)
  | fail (now : Nat) (msg : String) (j : Job) (h : j.status = .running) :
      JobStep j (updateJobStatus now .failed 0 (some msg) j)
  | cancel (now : Nat) (j : Job) : JobStep j (cancelJob now j)
  | reap (now stuckCutoff : Nat) (j : Job) :
      JobStep j (reapOne now stuckCutoff j)
  | retry (j j' : Job) (h : retryFailedJob j = .ok j') : JobStep j j'

/-- Job rows reachable from creation by the modelled operations. -/
inductive ReachableJob : Job → Prop where
  | init : ReachableJob initialJob
  | step {j j' : Job} : ReachableJob j → JobStep j j' → ReachableJob j'

/-- The three invariants exactly as the specification states them. -/
def jobInvariants (j : Job) : Prop :=
  (j.started_at.isSome ↔
    (j.status = .running ∨ j.status = .completed ∨ j.status = .failed ∨
     j.status = .cancelled)) ∧
  (j.completed_at.isSome ↔
    (j.status = .completed ∨ j.status = .failed ∨ j.status = .cancelled)) ∧
  (j.progress = 100 ↔ j.status = .completed)

/-- Strengthened inductive invariant actually maintained by the code:
the `started_at` biconditional survives only in the weakened form of the
last two conjuncts (a job cancelled from `queued` keeps a NULL
`started_at`). -/
def jobInvariantsAmended (j : Job) : Prop :=
  (j.completed_at.isSome ↔
    (j.status = .completed ∨ j.status = .failed ∨ j.status = .cancelled)) ∧
  (j.progress = 100 ↔ j.status = .completed) ∧
  ((j.status = .running ∨ j.status = .completed ∨ j.status = .failed) →
    j.started_at.isSome) ∧
  (j.status = .queued → j.started_at = none)

/-- Auxiliary strengthening used for the induction: away from
`completed` the recorded progress never exceeds 75. -/
def jobProgressBound (j : Job) : Prop :=
  (j.status = .completed → j.progress = 100) ∧
  (j.status ≠ .completed → j.progress ≤ 75)

/-! ## Scan-completion counters

`RobustCrawler.processJob`, scan-completion update (the `.from('scans')
.update({...})` after `saveResults`). -/

/-- The fields of a crawl result relevant to the counters
(`CrawlResult` in the crawler service). -/
structure CrawlResultRec where
  url : String
  response_code : Nat
  content_hash : String
deriving DecidableEq, Repr

/-- The scan row update issued on completion: `status: 'completed'`,
`total_pages = results.length`,
`new_pages = results.filter(r => r.response_code === 200).length`,
`error_pages = results.filter(r => r.response_code >= 400).length`.
No other counter column appears in the update, and no data from any
previous scan is read anywhere in `processJob`. -/
def scanCompletionUpdate (now : Nat) (results : List CrawlResultRec)
    (scan : ScanRow) : ScanRow :=
  { scan with
    status := .completed
    completed_at := some now
    total_pages := results.length
    new_pages := (results.filter (fun r => r.response_code == 200)).length
    error_pages := (results.filter (fun r => 400 ≤ r.response_code)).length }

/-- Counter definition following the specification's words: newPages =
URLs of the new snapshot set that are absent from the previous scan's
URL set.  Stated only to be compared against `scanCompletionUpdate`. -/
def specNewPages (prevUrls : List String) (results : List CrawlResultRec) :
    Nat :=
  (results.filter (fun r => !prevUrls.contains r.url)).length

/-- Specification's words: removedPages = URLs of the previous scan
absent from the new snapshot set. -/
def specRemovedPages (prevUrls : List String)
    (results : List CrawlResultRec) : Nat :=
  (prevUrls.filter (fun u => !(results.map (fun r => r.url)).contains u)).length

/-- Specification's words: errorPages = new results with response code
outside [200, 400). -/
def specErrorPages (results : List CrawlResultRec) : Nat :=
  (results.filter (fun r =>
    !(200 ≤ r.response_code ∧ r.response_code < 400 : Bool))).length

/-! ## Glob pattern matcher

`RobustCrawler.matchesPattern` / `matchesPatterns`. -/

/-- One item of the regular expression produced by the translation:
a literal character, the any-character `.`, or `.*`. -/
inductive RItem where
  | lit (c : Char)
  | anyc
  | star
deriving DecidableEq, Repr

/-- JavaScript `.` semantics: any single character except the four
line terminators LF, CR, U+2028 and U+2029 (the expression is compiled
without the `s` flag). -/
def jsDotMatches (c : Char) : Bool :=
  c != '\n' && c != '\r' && c != '\u2028' && c != '\u2029'

/-- The translation step of `matchesPattern`:
`pattern.replace(/\*/g, '.*').replace(/\?/g, '.')`, after which the
string is read as a regular expression.  `*` becomes `.*`, `?` becomes
`.`, and every other character is left as-is — so a `.` already in the
pattern is the regex any-character, not a literal dot.  Characters
other than `*`, `?` and `.` are modelled as literals here, which
agrees with `new RegExp` only when the pattern contains no further
regex metacharacter (`+`, `(`, `[`, `^`, `$`, backslash, …) — the C6
theorem is restricted to such patterns via `globSafeChar` and asserts
nothing about the others, for which the source keeps the regex
meaning (e.g. the source matches "aab" against the pattern "a+"). -/
def translateGlob (p : List Char) : List RItem :=
  p.map fun c =>
    if c = '*' then RItem.star
    else if c = '?' then RItem.anyc
    else if c = '.' then RItem.anyc
    else RItem.lit c

/-- Pattern characters on which the literal reading of `translateGlob`
agrees with `new RegExp`: a single UTF-16 code unit (basic
multilingual plane, so Lean characters and JavaScript code units
correspond one-to-one) and not one of the regex metacharacters the
translation leaves unescaped.  `*`, `?` and `.` are translated, hence
allowed. -/
def globSafeChar (c : Char) : Bool :=
  decide (c.toNat < 65536) &&
    !(['\\', '^', '$', '+', '(', ')', '[', ']', '\x7b', '\x7d',
      '|'].contains c)

/-- Reference matcher for the translated expression: does the item list
match the whole string?  `.` (from `?` or a pattern dot) matches one
non-line-terminator character, and `.*` consumes an arbitrary run of
non-line-terminator characters: the remainder is reached by dropping
such a prefix. -/
def rmatchFull : List RItem → List Char → Bool
  | [], s => s.isEmpty
  | .lit _ :: _, [] => false
  | .lit c :: rs, x :: xs => x == c && rmatchFull rs xs
  | .anyc :: _, [] => false
  | .anyc :: rs, x :: xs => jsDotMatches x && rmatchFull rs xs
  | .star :: rs, s =>
      (List.range (s.length + 1)).any fun k =>
        (s.take k).all jsDotMatches && rmatchFull rs (s.drop k)

/-- `RobustCrawler.matchesPattern`: the translated expression is applied
with JavaScript `RegExp.prototype.test`, an unanchored search — the
pattern must match some contiguous substring of the url.  Faithful to
the source exactly for urls of basic-plane characters and patterns of
`globSafeChar` characters; for other patterns the source's regex
semantics (quantifiers, groups, classes, anchors) are not modelled and
no theorem below asserts anything about them. -/
def matchesPattern (url pat : String) : Bool :=
  url.data.tails.any fun suf =>
    suf.inits.any fun mid => rmatchFull (translateGlob pat.data) mid

/-- An include-pattern entry (`{ pattern, enabled }` in settings). -/
structure PatternConfig where
  pattern : String
  enabled : Bool
deriving DecidableEq, Repr

/-- `RobustCrawler.matchesPatterns`: any matching exclude pattern wins;
an empty include list includes by default; otherwise some enabled
include pattern must match.  The source's for-loops with early return
are the `List.any` combinators. -/
def matchesPatterns (url : String) (includePatterns : List PatternConfig)
    (excludePatterns : List String) : Bool :=
  if excludePatterns.any (fun p => matchesPattern url p) then false
  else if includePatterns.isEmpty then true
  else includePatterns.any (fun pc => pc.enabled && matchesPattern url pc.pattern)

/-- Declarative glob-fit relation used to characterise the matcher:
`?` and (because the translation leaves it unescaped) `.` match any
one non-line-terminator character, `*` matches any run of such
characters, every other character matches itself. -/
inductive GlobFits : List Char → List Char → Prop where
  | nil : GlobFits [] []
  | lit {c : Char} {p s : List Char} : c ≠ '*' → c ≠ '?' → c ≠ '.' →
      GlobFits p s → GlobFits (c :: p) (c :: s)
  | qmark {c : Char} {p s : List Char} : jsDotMatches c = true →
      GlobFits p s → GlobFits ('?' :: p) (c :: s)
  | dot {c : Char} {p s : List Char} : jsDotMatches c = true →
      GlobFits p s → GlobFits ('.' :: p) (c :: s)
  | starNil {p s : List Char} : GlobFits p s → GlobFits ('*' :: p) s
  | starCons {c : Char} {p s : List Char} : jsDotMatches c = true →
      GlobFits ('*' :: p) s → GlobFits ('*' :: p) (c :: s)

/-- The matcher the specification describes: anchored on the whole
string, `*` any run, `?` any single character, all other characters
(dots included) literal.  Written from the claim's words, only to be
compared with `matchesPattern`. -/
def claimGlobMatch : List Char → List Char → Bool
  | [], s => s.isEmpty
  | '*' :: p, s => s.tails.any (fun suf => claimGlobMatch p suf)
  | _ :: _, [] => false
  | '?' :: p, _ :: xs => claimGlobMatch p xs
  | c :: p, x :: xs => c == x && claimGlobMatch p xs

/-! ## Run-comparison engine

`compareHeaders` / `compareSnapshots` and the per-URL result
construction of `useRunComparison` (src/hooks/useRunComparison.ts). -/

inductive Impact where
  | low | medium | high
deriving DecidableEq, Repr

inductive ChangeType where
  | added | removed | modified
deriving DecidableEq, Repr

/-- `FieldChange` (src/types): optional old/new values are the JS
`undefined` of the added/removed branches. -/
structure FieldChange where
  field : String
  type : ChangeType
  oldValue : Option String
  newValue : Option String
  impact : Impact
deriving DecidableEq, Repr

structure HeaderStructure where
  level : Nat
  text : String
deriving DecidableEq, Repr

/-- `PageSnapshot`, restricted to the fields the comparison reads.
`customData` values are compared only for equality in the source, so
they are modelled as strings. -/
structure PageSnapshot where
  url : String
  title : Option String
  metaDescription : Option String
  canonicalUrl : Option String
  breadcrumbs : List String
  headers : List HeaderStructure
  customData : List (String × String)
deriving DecidableEq, Repr

/-- Field name of a header change: `header-h<level>`. -/
def hfield (level : Nat) : String := "header-h" ++ toString level

/-- Impact of a header change: `level <= 2 ? 'high' : 'medium'`. -/
def himpact (level : Nat) : Impact := if level ≤ 2 then .high else .medium

/-- The key map `new Map(headers.map((h, i) => [`level-i`, h]))` of
`compareHeaders`: each header keyed by (level, position).  The starting
index `n` generalises the source's 0 for the inductive proofs. -/
def indexedFrom (n : Nat) (H : List HeaderStructure) :
    List ((Nat × Nat) × HeaderStructure) :=
  (H.enumFrom n).map fun p => ((p.2.level, p.1), p.2)

/-- `Map.prototype.get` on such a key map (keys are unique by
construction, so first-match lookup is map lookup). -/
def lookupKey (m : List ((Nat × Nat) × HeaderStructure)) (k : Nat × Nat) :
    Option HeaderStructure :=
  (m.find? (fun e => e.1 == k)).map (fun e => e.2)

/-- First loop of `compareHeaders`: base-map entries whose key is absent
from the compare map become `removed` changes. -/
def removedBlock (base cmp : List HeaderStructure) : List FieldChange :=
  (indexedFrom 0 base).filterMap fun e =>
    if (lookupKey (indexedFrom 0 cmp) e.1).isSome then none
    else some ⟨hfield e.2.level, .removed, some e.2.text, none,
               himpact e.2.level⟩

/-- Second loop of `compareHeaders`: compare-map entries whose key is
absent from the base map become `added` changes. -/
def addedBlock (base cmp : List HeaderStructure) : List FieldChange :=
  (indexedFrom 0 cmp).filterMap fun e =>
    if (lookupKey (indexedFrom 0 base) e.1).isSome then none
    else some ⟨hfield e.2.level, .added, none, some e.2.text,
               himpact e.2.level⟩

/-- One step of the third loop of `compareHeaders`: a base entry `e`
yields a `modified` change when the compare map `M` holds its key with
different text. -/
def modEntry (M : List ((Nat × Nat) × HeaderStructure))
    (e : (Nat × Nat) × HeaderStructure) : Option FieldChange :=
  match lookupKey M e.1 with
  | some hh =>
    if e.2.text ≠ hh.text then
      some ⟨hfield e.2.level, .modified, some e.2.text, some hh.text,
            himpact e.2.level⟩
    else none
  | none => none

/-- Third loop of `compareHeaders` (generalised over the start index for
the proofs; the source uses 0): entries present in both maps with
different text become `modified` changes. -/
def modifiedFrom (n : Nat) (base cmp : List HeaderStructure) :
    List FieldChange :=
  (indexedFrom n base).filterMap (modEntry (indexedFrom n cmp))

/-- `compareHeaders`: removed, then added, then modified changes. -/
def compareHeadersFn (base cmp : List HeaderStructure) : List FieldChange :=
  removedBlock base cmp ++ addedBlock base cmp ++ modifiedFrom 0 base cmp

/-- `customData[key]` lookup (JS objects have unique keys). -/
def lookupStr (l : List (String × String)) (k : String) : Option String :=
  (l.find? (fun e => e.1 == k)).map (fun e => e.2)

/-- `Object.keys({...base.customData, ...compare.customData})`: the base
object's keys in order, then the compare-only keys in order. -/
def mergedKeys (b c : List (String × String)) : List String :=
  b.map (fun e => e.1) ++
    (c.map (fun e => e.1)).filter (fun k => !(b.map (fun e => e.1)).contains k)

/-- One key of the custom-data loop of `compareSnapshots`: a change
when the values differ (`undefined` when missing on one side); impact
high for the `price` key, low otherwise. -/
def customEntry (bcd ccd : List (String × String)) (k : String) :
    Option FieldChange :=
  let vb := lookupStr bcd k
  let vc := lookupStr ccd k
  if vb ≠ vc then
    some ⟨k, .modified, vb, vc, if k = "price" then .high else .low⟩
  else none

/-- The custom-data loop of `compareSnapshots` over the merged keys. -/
def customChanges (bcd ccd : List (String × String)) : List FieldChange :=
  (mergedKeys bcd ccd).filterMap (customEntry bcd ccd)

/-- JS truthiness of an optional string field (`if (compare.title)`):
present and non-empty. -/
def truthyStr : Option String → Bool
  | some s => !s.isEmpty
  | none => false

/-- `breadcrumbs.join(' > ')`. -/
def joinGt (l : List String) : String := String.intercalate " > " l

/-- Page-was-added branch of `compareSnapshots` (base undefined):
title, metaDescription, breadcrumbs, then header changes. -/
def addedChanges (c : PageSnapshot) : List FieldChange :=
  (if truthyStr c.title then
    [⟨"title", .added, none, c.title, .high⟩] else [])
  ++ (if truthyStr c.metaDescription then
    [⟨"metaDescription", .added, none, c.metaDescription, .medium⟩] else [])
  ++ (if c.breadcrumbs ≠ [] then
    [⟨"breadcrumbs", .added, none, some (joinGt c.breadcrumbs), .low⟩] else [])
  ++ (if c.headers ≠ [] then compareHeadersFn [] c.headers else [])

/-- Page-was-removed branch of `compareSnapshots` (compare undefined):
title, breadcrumbs, then header changes — the source emits no
metaDescription change in this branch. -/
def removedChanges (b : PageSnapshot) : List FieldChange :=
  (if truthyStr b.title then
    [⟨"title", .removed, b.title, none, .high⟩] else [])
  ++ (if b.breadcrumbs ≠ [] then
    [⟨"breadcrumbs", .removed, some (joinGt b.breadcrumbs), none, .low⟩] else [])
  ++ (if b.headers ≠ [] then compareHeadersFn b.headers [] else [])

/-- Both-present branch of `compareSnapshots`: field-by-field modified
changes (breadcrumb lists are compared via their JSON serialisation in
the source, which for string lists is list equality), then header
changes, then custom-data changes. -/
def bothChanges (b c : PageSnapshot) : List FieldChange :=
  (if b.title ≠ c.title then
    [⟨"title", .modified, b.title, c.title, .high⟩] else [])
  ++ (if b.metaDescription ≠ c.metaDescription then
    [⟨"metaDescription", .modified, b.metaDescription, c.metaDescription,
      .medium⟩] else [])
  ++ (if b.canonicalUrl ≠ c.canonicalUrl then
    [⟨"canonicalUrl", .modified, b.canonicalUrl, c.canonicalUrl,
      .medium⟩] else [])
  ++ (if b.breadcrumbs ≠ c.breadcrumbs then
    [⟨"breadcrumbs", .modified, some (joinGt b.breadcrumbs),
      some (joinGt c.breadcrumbs), .low⟩] else [])
  ++ compareHeadersFn b.headers c.headers
  ++ customChanges b.customData c.customData

/-- `compareSnapshots(base?, compare?)`. -/
def compareSnapshots :
    Option PageSnapshot → Option PageSnapshot → List FieldChange
  | none, some c => addedChanges c
  | some b, none => removedChanges b
  | none, none => []
  | some b, some c => bothChanges b c

/-- The severity expression of `useRunComparison`:
`changes.some(high) ? 'high' : changes.some(medium) ? 'medium' : 'low'`. -/
def severityOf (changes : List FieldChange) : Impact :=
  if changes.any (fun c => c.impact == .high) then .high
  else if changes.any (fun c => c.impact == .medium) then .medium
  else .low

inductive PageChangeType where
  | added | removed | modified | unchanged
deriving DecidableEq, Repr

/-- `PageComparisonResult` (src/types): note that `severity` is a total
field of type 'low' | 'medium' | 'high' — the TS type admits no absent
severity. -/
structure PageComparisonResult where
  url : String
  baseSnapshot : Option PageSnapshot
  compareSnapshot : Option PageSnapshot
  changeType : PageChangeType
  changes : List FieldChange
  severity : Impact
deriving DecidableEq, Repr

/-- The per-URL body of the comparison loop in `useRunComparison`:
change type by presence, changes by `compareSnapshots`, severity always
computed from the change list. -/
def pageResult (url : String) (bs cs : Option PageSnapshot) :
    PageComparisonResult :=
  let changes := compareSnapshots bs cs
  let ct : PageChangeType :=
    match bs, cs with
    | none, some _ => .added
    | some _, none => .removed
    | some _, some _ => if changes ≠ [] then .modified else .unchanged
    | none, none => .unchanged
  { url := url
    baseSnapshot := bs
    compareSnapshot := cs
    changeType := ct
    changes := changes
    severity := severityOf changes }

/-- Inverting a comparison direction on one change: added and removed
swap, modified stays, old and new values swap, field and impact are
preserved. -/
def swapCType : ChangeType → ChangeType
  | .added => .removed
  | .removed => .added
  | .modified => .modified

def swapChange (c : FieldChange) : FieldChange :=
  { field := c.field
    type := swapCType c.type
    oldValue := c.newValue
    newValue := c.oldValue
    impact := c.impact }

def impactRank : Impact → Nat
  | .low => 0
  | .medium => 1
  | .high => 2

/-- Join of the severity order high > medium > low. -/
def maxImpact (a b : Impact) : Impact :=
  if impactRank a ≤ impactRank b then b else a

/-! ## Breadcrumb extraction

`RobustCrawler.extractBreadcrumbs`.  The function scans the raw HTML
twice: first every JSON-LD script block, then four hard-coded CSS-class
fallback selectors.  The model works on the parsed artefacts those scans
produce: the sequence of JSON-LD blocks in document order (each either a
parsed value or a parse failure), and the list of text runs each
fallback selector would extract. -/

inductive JVal where
  | null
  | undef
  | bool (b : Bool)
  | num (n : Int)
  | str (s : String)
  | arr (elems : List JVal)
  | obj (fields : List (String × JVal))
deriving Repr

/-- `source === null || source === undefined` (and the per-key check
`source[key] === null || source[key] === undefined`). -/
def isNullish : JVal → Bool
  | .null => true
  | .undef => true
  | _ => false

/-- `typeof v === 'object'`. -/
def isObjType : JVal → Bool
  | .obj _ => true
  | .arr _ => true
  | .null => true
  | _ => false

/-- `typeof v === 'object' && v !== null && !Array.isArray(v)`. -/
def isPlainObj : JVal → Bool
  | .obj _ => true
  | _ => false

/-- JS falsiness, for `target[key] || {}`. -/
def falsyJ : JVal → Bool
  | .null => true
  | .undef => true
  | .bool b => !b
  | .num n => n == 0
  | .str s => s.isEmpty
  | .arr _ => false
  | .obj _ => false

/-- The own fields seen by `{...target}` and `target[key]`.  A spread of
an array would contribute index keys; no claim merges into an array
target, so non-objects contribute no fields. -/
def objFields : JVal → List (String × JVal)
  | .obj f => f
  | _ => []

/-- `result[key] = v` on an insertion-ordered JS object: an existing key
is updated in place, a new key is appended. -/
def setKey : List (String × JVal) → String → JVal → List (String × JVal)
  | [], k, v => [(k, v)]
  | (k', v') :: rest, k, v =>
    if k' = k then (k, v) :: rest else (k', v') :: setKey rest k v

/-- `o[key]` on an insertion-ordered JS object. -/
def getField : List (String × JVal) → String → Option JVal
  | [], _ => none
  | (k', v') :: rest, k => if k' = k then some v' else getField rest k

/-- `target[key] || {}`. -/
def targetChild (t : JVal) (k : String) : JVal :=
  match getField (objFields t) k with
  | some v => if falsyJ v then .obj [] else v
  | none => .obj []

/-- Replay of the assignments of the `for (const key in source)` loop
of `deepMerge` onto `result = {...target}`: a `none` entry is a skipped
key (nullish source value, target value kept), a `some` entry is
`result[key] = value`.  The loop's per-key values never read `result`,
so computing them first (below, in `deepMerge`) and assigning them here
in loop order is the same computation. -/
def applyUpdates (acc : List (String × JVal)) :
    List (String × Option JVal) → List (String × JVal)
  | [] => acc
  | (_, none) :: rest => applyUpdates acc rest
  | (k, some v) :: rest => applyUpdates (setKey acc k v) rest

/-- `deepMerge`: nullish source keeps the target; a non-object on either
side yields the source; an array source replaces wholesale; otherwise
start from a copy of the target and, in key order of the source, skip
nullish values, recurse into plain-object values against
`target[key] || {}`, and overwrite with anything else. -/
def deepMerge (t s : JVal) : JVal :=
  if isNullish s then t
  else if !isObjType t || !isObjType s then s
  else match s with
    | .arr l => .arr l
    | .obj sf =>
      .obj (applyUpdates (objFields t)
        (sf.attach.map (fun x =>
          (x.1.1,
            if isNullish x.1.2 then none
            else if isPlainObj x.1.2 then
              some (deepMerge (targetChild t x.1.1) x.1.2)
            else some x.1.2))))
    | .null => .null
    | .undef => .undef
    | .bool b => .bool b
    | .num n => .num n
    | .str q => .str q
termination_by sizeOf s
decreasing_by
  have h1 := List.sizeOf_lt_of_mem x.2
  obtain ⟨⟨k, v⟩, hmem⟩ := x
  simp only [Prod.mk.sizeOf_spec] at h1
  simp only [JVal.obj.sizeOf_spec]
  omega

/-! ## General list helpers -/

theorem filterMap_ext {α β : Type} {f g : α → Option β} (l : List α)
    (h : ∀ x ∈ l, f x = g x) : l.filterMap f = l.filterMap g := by
  induction l with
  | nil => rfl
  | cons a t ih =>
    simp only [List.filterMap_cons]
    rw [h a (List.mem_cons_self a t), ih fun x hx => h x (List.mem_cons_of_mem a hx)]

theorem filterMap_none {α β : Type} {f : α → Option β} (l : List α)
    (h : ∀ x ∈ l, f x = none) : l.filterMap f = [] := by
  induction l with
  | nil => rfl
  | cons a t ih =>
    simp only [List.filterMap_cons, h a (List.mem_cons_self a t)]
    exact ih fun x hx => h x (List.mem_cons_of_mem a hx)

/-! ## Claim C9 — job retry -/

/-- Claim C9: `retryFailedJob` rejects with an error (and hence leaves
the row unchanged) whenever `retry_count ≥ max_retries`; below the
limit it re-queues a `failed` job with the counter incremented,
progress reset and error/timestamps cleared, and leaves any other job
unchanged (the `status = 'failed'` update guard matches no row). -/
theorem retryFailedJob_spec (j : Job) :
    (j.max_retries ≤ j.retry_count →
      retryFailedJob j = .error "Maximum retry attempts exceeded") ∧
    (j.retry_count < j.max_retries → j.status = .failed →
      retryFailedJob j = .ok
        { j with
          status := .queued
          retry_count := j.retry_count + 1
          error_message := none
          started_at := none
          completed_at := none
          progress := 0 }) ∧
    (j.retry_count < j.max_retries → j.status ≠ .failed →
      retryFailedJob j = .ok j) := by
  refine ⟨fun h => ?_, fun h hs => ?_, fun h hs => ?_⟩
  · simp [retryFailedJob, h]
  · simp [retryFailedJob, hs, Nat.not_le.mpr h]
  · simp [retryFailedJob, hs, Nat.not_le.mpr h]

/-- Witness for C9 at a concrete failed job with one retry left. -/
theorem retryFailedJob_spec_witness :
    retryFailedJob
        { status := .failed, progress := 0, started_at := some 3,
          completed_at := some 9, retry_count := 1, max_retries := 3,
          error_message := some "boom" } =
      .ok { status := .queued, progress := 0, started_at := none,
            completed_at := none, retry_count := 2, max_retries := 3,
            error_message := none } :=
  (retryFailedJob_spec
    { status := .failed, progress := 0, started_at := some 3,
      completed_at := some 9, retry_count := 1, max_retries := 3,
      error_message := some "boom" }).2.1 (by decide) rfl

/-! ## Claim C1 — scan-completion counters -/

/-- Counterexample to claim C1: with a previous scan containing exactly
the surviving URL, the specification's newPages is 0 while the code
stores 1 (it counts HTTP-200 results, never consulting the previous
scan). -/
theorem scanCounters_previous_scan_cex :
    (scanCompletionUpdate 99 [⟨"a", 200, "h2"⟩]
        ⟨.running, none, 0, 0, 0, 0, 0⟩).new_pages = 1 ∧
    specNewPages ["a"] [⟨"a", 200, "h2"⟩] = 0 ∧
    specRemovedPages ["a"] [⟨"a", 200, "h2"⟩] = 0 ∧
    (scanCompletionUpdate 99 [⟨"b", 404, "h"⟩]
        ⟨.running, none, 0, 0, 0, 0, 0⟩).new_pages = 0 ∧
    specNewPages ["a"] [⟨"b", 404, "h"⟩] = 1 := by
  decide

/-- Claim C1 (amended): on completion the orchestrator sets
`total_pages` to the number of results, `new_pages` to the number of
results with response code exactly 200 and `error_pages` to the number
with code ≥ 400; `changed_pages` and `removed_pages` keep their prior
row values, and the counters depend only on the response codes — no
previous-scan URL set enters the computation. -/
theorem scanCompletionUpdate_spec (now : Nat)
    (results : List CrawlResultRec) (scan : ScanRow) :
    ((scanCompletionUpdate now results scan).total_pages = results.length ∧
     (scanCompletionUpdate now results scan).new_pages =
       results.countP (fun r => r.response_code == 200) ∧
     (scanCompletionUpdate now results scan).error_pages =
       results.countP (fun r => decide (400 ≤ r.response_code)) ∧
     (scanCompletionUpdate now results scan).changed_pages =
       scan.changed_pages ∧
     (scanCompletionUpdate now results scan).removed_pages =
       scan.removed_pages ∧
     (scanCompletionUpdate now results scan).status = .completed ∧
     (scanCompletionUpdate now results scan).completed_at = some now) ∧
    (∀ results' : List CrawlResultRec,
      results.map (fun r => r.response_code) =
        results'.map (fun r => r.response_code) →
      (scanCompletionUpdate now results scan).new_pages =
        (scanCompletionUpdate now results' scan).new_pages ∧
      (scanCompletionUpdate now results scan).error_pages =
        (scanCompletionUpdate now results' scan).error_pages ∧
      (scanCompletionUpdate now results scan).total_pages =
        (scanCompletionUpdate now results' scan).total_pages) := by
  constructor
  · simp [scanCompletionUpdate, List.countP_eq_length_filter]
  · intro results' hmap
    have hn : ∀ l : List CrawlResultRec,
        (l.filter (fun r => r.response_code == 200)).length =
          (l.map (fun r => r.response_code)).countP (fun n => n == 200) := by
      intro l
      rw [List.countP_map, ← List.countP_eq_length_filter]
      rfl
    have he : ∀ l : List CrawlResultRec,
        (l.filter (fun r => 400 ≤ r.response_code)).length =
          (l.map (fun r => r.response_code)).countP
            (fun n => decide (400 ≤ n)) := by
      intro l
      rw [List.countP_map, ← List.countP_eq_length_filter]
      rfl
    refine ⟨?_, ?_, ?_⟩ <;>
      simp only [scanCompletionUpdate, hn, he, hmap, ← List.length_map
        (f := fun r : CrawlResultRec => r.response_code)]

/-- Witness for C1 (amended) at concrete result lists with equal code
sequences but different URLs. -/
theorem scanCompletionUpdate_spec_witness :
    (scanCompletionUpdate 7 [⟨"a", 200, "h"⟩]
        ⟨.running, none, 0, 0, 0, 0, 0⟩).new_pages =
      (scanCompletionUpdate 7 [⟨"b", 200, "x"⟩]
        ⟨.running, none, 0, 0, 0, 0, 0⟩).new_pages :=
  ((scanCompletionUpdate_spec 7 [⟨"a", 200, "h"⟩]
      ⟨.running, none, 0, 0, 0, 0, 0⟩).2 [⟨"b", 200, "x"⟩] (by decide)).1

/-! ## Claim C7 — stuck-job reaper -/

/-- Counterexample to claim C7: a reaper cycle over a 3-hour-old running
job and its running scan row fails the job but leaves the scan row
exactly as it was (still `running`, not `failed`) — `maintainJobs` never
touches the `scans` table. -/
theorem maintainJobs_scan_untouched_cex :
    (maintainJobs 10800 3600 0
        ⟨[⟨.running, 50, some 0, none, 0, 3, none⟩],
         [⟨.running, none, 5, 0, 0, 0, 0⟩]⟩).jobs =
      [⟨.failed, 50, some 0, some 10800, 0, 3,
        some "Job timed out after 2 hours"⟩] ∧
    (maintainJobs 10800 3600 0
        ⟨[⟨.running, 50, some 0, none, 0, 3, none⟩],
         [⟨.running, none, 5, 0, 0, 0, 0⟩]⟩).scans =
      [⟨.running, none, 5, 0, 0, 0, 0⟩] ∧
    (⟨.running, none, 5, 0, 0, 0, 0⟩ : ScanRow).status ≠ .failed := by
  decide

/-- Claim C7 (amended): one reaper cycle turns every running job whose
`started_at` lies before the stuck cutoff into `failed` with the
"timed out" error message and `completed_at` set, leaving `progress`,
`started_at` and `retry_count` untouched; it performs no write to the
`scans` table and does not re-queue the job. -/
theorem maintainJobs_reap_spec (now stuckCutoff oldCutoff : Nat)
    (st : MaintState) (j : Job) (t : Nat)
    (hmem : j ∈ st.jobs) (hrun : j.status = .running)
    (hstart : j.started_at = some t) (ht : t < stuckCutoff)
    (hcut : oldCutoff ≤ now) :
    { j with
      status := .failed
      completed_at := some now
      error_message := some "Job timed out after 2 hours" } ∈
        (maintainJobs now stuckCutoff oldCutoff st).jobs ∧
    (maintainJobs now stuckCutoff oldCutoff st).scans = st.scans := by
  constructor
  · have hreap : reapOne now stuckCutoff j =
        { j with
          status := .failed
          completed_at := some now
          error_message := some "Job timed out after 2 hours" } := by
      simp [reapOne, hstart, hrun, ht]
    refine List.mem_filter.mpr ⟨?_, ?_⟩
    · exact hreap ▸ List.mem_map_of_mem (reapOne now stuckCutoff) hmem
    · simp [Nat.not_lt.mpr hcut]
  · rfl

/-- Witness for C7 (amended) at a concrete stuck job. -/
theorem maintainJobs_reap_spec_witness :
    { status := .failed, progress := 50, started_at := some 0,
      completed_at := some 10800, retry_count := 0, max_retries := 3,
      error_message := some "Job timed out after 2 hours" : Job } ∈
      (maintainJobs 10800 3600 100
        ⟨[⟨.running, 50, some 0, none, 0, 3, none⟩],
         [⟨.running, none, 5, 0, 0, 0, 0⟩]⟩).jobs :=
  (maintainJobs_reap_spec 10800 3600 100
    ⟨[⟨.running, 50, some 0, none, 0, 3, none⟩],
     [⟨.running, none, 5, 0, 0, 0, 0⟩]⟩
    ⟨.running, 50, some 0, none, 0, 3, none⟩ 0
    (List.mem_singleton.mpr rfl) rfl rfl (by decide) (by decide)).1

/-! ## Claim C4 — comparison inversion -/

theorem indexedFrom_cons (n : Nat) (h : HeaderStructure)
    (t : List HeaderStructure) :
    indexedFrom n (h :: t) = ((h.level, n), h) :: indexedFrom (n + 1) t :=
  rfl

theorem mem_indexedFrom {n : Nat} {H : List HeaderStructure}
    {e : (Nat × Nat) × HeaderStructure} (he : e ∈ indexedFrom n H) :
    n ≤ e.1.2 := by
  induction H generalizing n with
  | nil => cases he
  | cons h t ih =>
    rw [indexedFrom_cons] at he
    rcases List.mem_cons.mp he with rfl | hmem
    · exact Nat.le_refl n
    · have := ih hmem
      omega

theorem lookupKey_cons (a : (Nat × Nat) × HeaderStructure)
    (m : List ((Nat × Nat) × HeaderStructure)) (k : Nat × Nat) :
    lookupKey (a :: m) k = if a.1 == k then some a.2 else lookupKey m k := by
  by_cases h : a.1 == k <;> simp [lookupKey, List.find?_cons, h]

theorem lookupKey_none_of_lt {n : Nat} (H : List HeaderStructure)
    (k : Nat × Nat) (hk : k.2 < n) :
    lookupKey (indexedFrom n H) k = none := by
  have hnone : (indexedFrom n H).find? (fun e => e.1 == k) = none := by
    rw [List.find?_eq_none]
    intro e he
    intro hbeq
    have h1 := mem_indexedFrom he
    have h2 : e.1 = k := eq_of_beq hbeq
    have h3 : e.1.2 = k.2 := by rw [h2]
    omega
  simp [lookupKey, hnone]

theorem map_swap_removedBlock (b c : List HeaderStructure) :
    (removedBlock b c).map swapChange = addedBlock c b := by
  unfold removedBlock addedBlock
  rw [List.map_filterMap]
  apply filterMap_ext
  intro e he
  by_cases h : (lookupKey (indexedFrom 0 c) e.1).isSome <;>
    simp [h, swapChange, swapCType]

theorem map_swap_addedBlock (b c : List HeaderStructure) :
    (addedBlock b c).map swapChange = removedBlock c b := by
  unfold removedBlock addedBlock
  rw [List.map_filterMap]
  apply filterMap_ext
  intro e he
  by_cases h : (lookupKey (indexedFrom 0 b) e.1).isSome <;>
    simp [h, swapChange, swapCType]

theorem modifiedFrom_nil_right (n : Nat) (b : List HeaderStructure) :
    modifiedFrom n b [] = [] := by
  apply filterMap_none
  intro e he
  rfl

theorem modEntry_shift {n : Nat} (h2 : HeaderStructure)
    (t2 : List HeaderStructure) {e : (Nat × Nat) × HeaderStructure}
    (hge : n + 1 ≤ e.1.2) :
    modEntry (indexedFrom n (h2 :: t2)) e =
      modEntry (indexedFrom (n + 1) t2) e := by
  unfold modEntry
  rw [indexedFrom_cons, lookupKey_cons]
  have hb : (((h2.level, n) : Nat × Nat) == e.1) = false := by
    rw [beq_eq_false_iff_ne]
    intro hcon
    have h2' : ((h2.level, n) : Nat × Nat).2 = e.1.2 := by rw [hcon]
    simp at h2'
    omega
  rw [hb]
  simp

theorem modifiedFrom_cons_cons (n : Nat) (h1 h2 : HeaderStructure)
    (t1 t2 : List HeaderStructure) :
    modifiedFrom n (h1 :: t1) (h2 :: t2) =
      (if h2.level = h1.level ∧ h1.text ≠ h2.text then
        [⟨hfield h1.level, .modified, some h1.text, some h2.text,
          himpact h1.level⟩]
       else []) ++ modifiedFrom (n + 1) t1 t2 := by
  unfold modifiedFrom
  rw [indexedFrom_cons n h1 t1, List.filterMap_cons]
  have htail : (indexedFrom (n + 1) t1).filterMap
      (modEntry (indexedFrom n (h2 :: t2))) =
      (indexedFrom (n + 1) t1).filterMap
        (modEntry (indexedFrom (n + 1) t2)) := by
    apply filterMap_ext
    intro e he
    exact modEntry_shift h2 t2 (mem_indexedFrom he)
  rw [htail]
  have hhead : modEntry (indexedFrom n (h2 :: t2)) ((h1.level, n), h1) =
      if h2.level = h1.level ∧ h1.text ≠ h2.text then
        some ⟨hfield h1.level, .modified, some h1.text, some h2.text,
              himpact h1.level⟩
      else none := by
    unfold modEntry
    rw [indexedFrom_cons, lookupKey_cons]
    by_cases hl : h2.level = h1.level
    · have hb : (((h2.level, n) : Nat × Nat) ==
          ((h1.level, n) : Nat × Nat)) = true := by
        rw [hl]
        simp
      rw [hb]
      by_cases ht : h1.text = h2.text <;> simp [hl, ht]
    · have hb : (((h2.level, n) : Nat × Nat) ==
          ((h1.level, n) : Nat × Nat)) = false := by
        rw [beq_eq_false_iff_ne]
        intro hcon
        have := (Prod.mk.injEq _ _ _ _).mp hcon
        exact hl this.1
      rw [hb]
      have hnone : lookupKey (indexedFrom (n + 1) t2) (h1.level, n) = none :=
        lookupKey_none_of_lt t2 (h1.level, n) (by omega)
      simp [hnone, hl]
  rw [hhead]
  by_cases hcond : h2.level = h1.level ∧ h1.text ≠ h2.text <;> simp [hcond]

theorem map_swap_modifiedFrom : ∀ (n : Nat) (b c : List HeaderStructure),
    (modifiedFrom n b c).map swapChange = modifiedFrom n c b := by
  intro n b
  induction b generalizing n with
  | nil =>
    intro c
    rw [modifiedFrom_nil_right]
    have hl : modifiedFrom n [] c = [] := rfl
    rw [hl]
    rfl
  | cons h1 t1 ih =>
    intro c
    cases c with
    | nil =>
      rw [modifiedFrom_nil_right]
      have hr : modifiedFrom n [] (h1 :: t1) = [] := rfl
      rw [hr]
      rfl
    | cons h2 t2 =>
      rw [modifiedFrom_cons_cons n h1 h2 t1 t2,
        modifiedFrom_cons_cons n h2 h1 t2 t1,
        List.map_append, ih (n + 1) t2]
      congr 1
      by_cases hl : h2.level = h1.level
      · by_cases ht : h1.text = h2.text
        · have ht' : ¬h2.text ≠ h1.text := by
            simp [ht]
          simp [hl, ht, ht']
        · have ht' : h2.text ≠ h1.text := fun hcon => ht hcon.symm
          simp [hl, ht, ht', swapChange, swapCType]
      · have hl' : ¬h1.level = h2.level := fun hcon => hl hcon.symm
        simp [hl, hl']

theorem swap_compareHeaders (b c : List HeaderStructure) :
    ((compareHeadersFn b c).map swapChange).Perm (compareHeadersFn c b) := by
  unfold compareHeadersFn
  rw [List.map_append, List.map_append, map_swap_removedBlock,
    map_swap_addedBlock, map_swap_modifiedFrom]
  exact List.Perm.append_right _ List.perm_append_comm

theorem mem_mergedKeys (b c : List (String × String)) (k : String) :
    k ∈ mergedKeys b c ↔
      k ∈ b.map (fun e => e.1) ∨ k ∈ c.map (fun e => e.1) := by
  unfold mergedKeys
  rw [List.mem_append, List.mem_filter]
  constructor
  · rintro (h | ⟨h1, -⟩)
    · exact Or.inl h
    · exact Or.inr h1
  · rintro (h | h)
    · exact Or.inl h
    · by_cases hb : k ∈ b.map (fun e => e.1)
      · exact Or.inl hb
      · refine Or.inr ⟨h, ?_⟩
        cases hX : (b.map (fun e => e.1)).contains k with
        | false => rfl
        | true => exact absurd (List.elem_iff.mp hX) hb

theorem nodup_mergedKeys (b c : List (String × String))
    (hb : (b.map (fun e => e.1)).Nodup) (hc : (c.map (fun e => e.1)).Nodup) :
    (mergedKeys b c).Nodup := by
  unfold mergedKeys
  refine List.Nodup.append hb (hc.filter _) ?_
  intro a ha hmem
  rw [List.mem_filter] at hmem
  have h2 := hmem.2
  have hX : (b.map (fun e => e.1)).contains a = true := List.elem_iff.mpr ha
  rw [hX] at h2
  cases h2

theorem perm_mergedKeys (b c : List (String × String))
    (hb : (b.map (fun e => e.1)).Nodup) (hc : (c.map (fun e => e.1)).Nodup) :
    (mergedKeys b c).Perm (mergedKeys c b) := by
  refine (List.perm_ext_iff_of_nodup (nodup_mergedKeys b c hb hc)
    (nodup_mergedKeys c b hc hb)).mpr ?_
  intro a
  rw [mem_mergedKeys, mem_mergedKeys]
  tauto

theorem customEntry_swap (b c : List (String × String)) (k : String) :
    (customEntry b c k).map swapChange = customEntry c b k := by
  unfold customEntry
  by_cases h : lookupStr b k = lookupStr c k
  · simp [h]
  · have h' : ¬lookupStr c k = lookupStr b k := fun hcon => h hcon.symm
    simp [h, h', swapChange, swapCType]

theorem map_swap_customChanges (b c : List (String × String))
    (hb : (b.map (fun e => e.1)).Nodup) (hc : (c.map (fun e => e.1)).Nodup) :
    ((customChanges b c).map swapChange).Perm (customChanges c b) := by
  unfold customChanges
  rw [List.map_filterMap]
  have h1 : (mergedKeys b c).filterMap
      (fun k => (customEntry b c k).map swapChange) =
      (mergedKeys b c).filterMap (customEntry c b) :=
    filterMap_ext _ (fun k _ => customEntry_swap b c k)
  rw [h1]
  exact (perm_mergedKeys b c hb hc).filterMap _

theorem severityOf_perm {l l' : List FieldChange} (h : l.Perm l') :
    severityOf l = severityOf l' := by
  have ha : ∀ p : FieldChange → Bool, l.any p = l'.any p := by
    intro p
    rw [Bool.eq_iff_iff, List.any_eq_true, List.any_eq_true]
    constructor
    · rintro ⟨x, hx, hp⟩
      exact ⟨x, h.mem_iff.mp hx, hp⟩
    · rintro ⟨x, hx, hp⟩
      exact ⟨x, h.mem_iff.mpr hx, hp⟩
  unfold severityOf
  rw [ha, ha]

theorem severityOf_map_swap (l : List FieldChange) :
    severityOf (l.map swapChange) = severityOf l := by
  unfold severityOf
  rw [List.any_map, List.any_map]
  rfl

theorem map_swap_bothChanges (b c : PageSnapshot)
    (hb : (b.customData.map (fun e => e.1)).Nodup)
    (hc : (c.customData.map (fun e => e.1)).Nodup) :
    ((bothChanges b c).map swapChange).Perm (bothChanges c b) := by
  unfold bothChanges
  simp only [List.map_append]
  have hT : (if b.title ≠ c.title then
      [(⟨"title", .modified, b.title, c.title, .high⟩ : FieldChange)]
      else []).map swapChange =
      (if c.title ≠ b.title then
      [(⟨"title", .modified, c.title, b.title, .high⟩ : FieldChange)]
      else []) := by
    by_cases h : b.title = c.title
    · simp [h]
    · have h' : ¬c.title = b.title := fun hcon => h hcon.symm
      simp [h, h', swapChange, swapCType]
  have hM : (if b.metaDescription ≠ c.metaDescription then
      [(⟨"metaDescription", .modified, b.metaDescription,
        c.metaDescription, .medium⟩ : FieldChange)]
      else []).map swapChange =
      (if c.metaDescription ≠ b.metaDescription then
      [(⟨"metaDescription", .modified, c.metaDescription,
        b.metaDescription, .medium⟩ : FieldChange)]
      else []) := by
    by_cases h : b.metaDescription = c.metaDescription
    · simp [h]
    · have h' : ¬c.metaDescription = b.metaDescription :=
        fun hcon => h hcon.symm
      simp [h, h', swapChange, swapCType]
  have hC : (if b.canonicalUrl ≠ c.canonicalUrl then
      [(⟨"canonicalUrl", .modified, b.canonicalUrl, c.canonicalUrl,
        .medium⟩ : FieldChange)]
      else []).map swapChange =
      (if c.canonicalUrl ≠ b.canonicalUrl then
      [(⟨"canonicalUrl", .modified, c.canonicalUrl, b.canonicalUrl,
        .medium⟩ : FieldChange)]
      else []) := by
    by_cases h : b.canonicalUrl = c.canonicalUrl
    · simp [h]
    · have h' : ¬c.canonicalUrl = b.canonicalUrl := fun hcon => h hcon.symm
      simp [h, h', swapChange, swapCType]
  have hB : (if b.breadcrumbs ≠ c.breadcrumbs then
      [(⟨"breadcrumbs", .modified, some (joinGt b.breadcrumbs),
        some (joinGt c.breadcrumbs), .low⟩ : FieldChange)]
      else []).map swapChange =
      (if c.breadcrumbs ≠ b.breadcrumbs then
      [(⟨"breadcrumbs", .modified, some (joinGt c.breadcrumbs),
        some (joinGt b.breadcrumbs), .low⟩ : FieldChange)]
      else []) := by
    by_cases h : b.breadcrumbs = c.breadcrumbs
    · simp [h]
    · have h' : ¬c.breadcrumbs = b.breadcrumbs := fun hcon => h hcon.symm
      simp [h, h', swapChange, swapCType]
  rw [hT, hM, hC, hB]
  exact List.Perm.append
    (List.Perm.append (List.Perm.refl _) (swap_compareHeaders _ _))
    (map_swap_customChanges _ _ hb hc)

theorem compareHeaders_nil_left (H : List HeaderStructure) :
    compareHeadersFn [] H = addedBlock [] H := by
  unfold compareHeadersFn
  have h1 : removedBlock [] H = [] := rfl
  have h2 : modifiedFrom 0 [] H = [] := rfl
  rw [h1, h2, List.nil_append, List.append_nil]

theorem compareHeaders_nil_right (H : List HeaderStructure) :
    compareHeadersFn H [] = removedBlock H [] := by
  unfold compareHeadersFn
  have h1 : addedBlock H [] = [] := rfl
  rw [h1, modifiedFrom_nil_right, List.append_nil, List.append_nil]

theorem hfield_ne_meta (lvl : Nat) : hfield lvl ≠ "metaDescription" := by
  intro h
  have h1 : (hfield lvl).data =
      'h' :: (("eader-h" : String).data ++ (toString lvl).data) := by
    show ("header-h" ++ toString lvl).data = _
    rw [String.data_append]
    rfl
  rw [h] at h1
  have h2 : ("metaDescription" : String).data =
      'm' :: ("etaDescription" : String).data := rfl
  rw [h2] at h1
  injection h1 with h3 h4
  exact absurd h3 (by decide)

theorem compareHeaders_field_ne_meta (b c : List HeaderStructure) :
    ∀ ch ∈ compareHeadersFn b c, ch.field ≠ "metaDescription" := by
  intro ch hch
  unfold compareHeadersFn at hch
  rcases List.mem_append.mp hch with hch1 | hcu
  · rcases List.mem_append.mp hch1 with hr | ha
    · obtain ⟨e, he, hfe⟩ := List.mem_filterMap.mp hr
      by_cases hcond : (lookupKey (indexedFrom 0 c) e.1).isSome
      · rw [if_pos hcond] at hfe
        cases hfe
      · rw [if_neg hcond, Option.some.injEq] at hfe
        rw [← hfe]
        exact hfield_ne_meta _
    · obtain ⟨e, he, hfe⟩ := List.mem_filterMap.mp ha
      by_cases hcond : (lookupKey (indexedFrom 0 b) e.1).isSome
      · rw [if_pos hcond] at hfe
        cases hfe
      · rw [if_neg hcond, Option.some.injEq] at hfe
        rw [← hfe]
        exact hfield_ne_meta _
  · obtain ⟨e, he, hfe⟩ := List.mem_filterMap.mp hcu
    unfold modEntry at hfe
    split at hfe
    · split at hfe
      · rw [Option.some.injEq] at hfe
        rw [← hfe]
        exact hfield_ne_meta _
      · cases hfe
    · cases hfe

theorem removed_eq_swap_filter (s : PageSnapshot) :
    compareSnapshots (some s) none =
      ((compareSnapshots none (some s)).filter
        (fun ch => ch.field != "metaDescription")).map swapChange := by
  show removedChanges s = ((addedChanges s).filter _).map swapChange
  unfold addedChanges removedChanges
  rw [List.filter_append, List.filter_append, List.filter_append]
  have hT : (if truthyStr s.title then
      [(⟨"title", .added, none, s.title, .high⟩ : FieldChange)]
      else []).filter (fun ch => ch.field != "metaDescription") =
      (if truthyStr s.title then
      [(⟨"title", .added, none, s.title, .high⟩ : FieldChange)]
      else []) := by
    by_cases h : truthyStr s.title <;> simp [h]
  have hM : (if truthyStr s.metaDescription then
      [(⟨"metaDescription", .added, none, s.metaDescription,
        .medium⟩ : FieldChange)]
      else []).filter (fun ch => ch.field != "metaDescription") = [] := by
    by_cases h : truthyStr s.metaDescription <;> simp [h]
  have hB : (if s.breadcrumbs ≠ [] then
      [(⟨"breadcrumbs", .added, none, some (joinGt s.breadcrumbs),
        .low⟩ : FieldChange)]
      else []).filter (fun ch => ch.field != "metaDescription") =
      (if s.breadcrumbs ≠ [] then
      [(⟨"breadcrumbs", .added, none, some (joinGt s.breadcrumbs),
        .low⟩ : FieldChange)]
      else []) := by
    by_cases h : s.breadcrumbs = [] <;> simp [h]
  have hH : (if s.headers ≠ [] then compareHeadersFn [] s.headers
      else []).filter (fun ch => ch.field != "metaDescription") =
      (if s.headers ≠ [] then compareHeadersFn [] s.headers else []) := by
    by_cases h : s.headers = []
    · simp [h]
    · rw [if_pos h]
      apply List.filter_eq_self.mpr
      intro ch hch
      exact bne_iff_ne.mpr (compareHeaders_field_ne_meta [] s.headers ch hch)
  rw [hT, hM, hB, hH, List.append_nil]
  rw [List.map_append, List.map_append]
  have hTm : (if truthyStr s.title then
      [(⟨"title", .added, none, s.title, .high⟩ : FieldChange)]
      else []).map swapChange =
      (if truthyStr s.title then
      [(⟨"title", .removed, s.title, none, .high⟩ : FieldChange)]
      else []) := by
    by_cases h : truthyStr s.title <;> simp [h, swapChange, swapCType]
  have hBm : (if s.breadcrumbs ≠ [] then
      [(⟨"breadcrumbs", .added, none, some (joinGt s.breadcrumbs),
        .low⟩ : FieldChange)]
      else []).map swapChange =
      (if s.breadcrumbs ≠ [] then
      [(⟨"breadcrumbs", .removed, some (joinGt s.breadcrumbs), none,
        .low⟩ : FieldChange)]
      else []) := by
    by_cases h : s.breadcrumbs = [] <;> simp [h, swapChange, swapCType]
  have hHm : (if s.headers ≠ [] then compareHeadersFn [] s.headers
      else []).map swapChange =
      (if s.headers ≠ [] then compareHeadersFn s.headers [] else []) := by
    by_cases h : s.headers = []
    · simp [h]
    · rw [if_pos h, if_pos h, compareHeaders_nil_left,
        map_swap_addedBlock, compareHeaders_nil_right]
  rw [hTm, hBm, hHm]

/-- Counterexample to claim C4: a page whose snapshot has only a
metaDescription.  As an added page it yields one medium change; as a
removed page (the swapped direction) it yields no change at all — the
added and removed results do not correspond and their severities
differ. -/
theorem comparison_inversion_cex :
    compareSnapshots none (some ⟨"u", none, some "m", none, [], [], []⟩) =
      [⟨"metaDescription", .added, none, some "m", .medium⟩] ∧
    compareSnapshots (some ⟨"u", none, some "m", none, [], [], []⟩) none =
      [] ∧
    severityOf (compareSnapshots none
      (some ⟨"u", none, some "m", none, [], [], []⟩)) = .medium ∧
    severityOf (compareSnapshots
      (some ⟨"u", none, some "m", none, [], [], []⟩) none) = .low := by
  decide

/-- Claim C4 (amended): swapping base and compare swaps the comparison
as follows.  For a page present in both runs, the swapped change list
is a permutation of the original with oldValue/newValue (and
added/removed types) swapped, so the unchanged classification and the
severity are identical.  For a page present in one run only, the
removed-direction result equals the added-direction result with values
swapped after dropping any metaDescription change — the source's
removed branch emits no metaDescription change, so added and removed
results (and their severities) correspond only up to that field. -/
theorem comparison_inversion (b c s : PageSnapshot) (u : String)
    (hb : (b.customData.map (fun e => e.1)).Nodup)
    (hc : (c.customData.map (fun e => e.1)).Nodup) :
    ((compareSnapshots (some b) (some c)).map swapChange).Perm
      (compareSnapshots (some c) (some b)) ∧
    (compareSnapshots (some b) (some c) = [] ↔
      compareSnapshots (some c) (some b) = []) ∧
    severityOf (compareSnapshots (some c) (some b)) =
      severityOf (compareSnapshots (some b) (some c)) ∧
    ((pageResult u (some b) (some c)).changeType = .unchanged ↔
      (pageResult u (some c) (some b)).changeType = .unchanged) ∧
    compareSnapshots (some s) none =
      ((compareSnapshots none (some s)).filter
        (fun ch => ch.field != "metaDescription")).map swapChange := by
  have hperm : ((compareSnapshots (some b) (some c)).map swapChange).Perm
      (compareSnapshots (some c) (some b)) := map_swap_bothChanges b c hb hc
  have hLen : (compareSnapshots (some b) (some c)).length =
      (compareSnapshots (some c) (some b)).length := by
    have h1 := hperm.length_eq
    rwa [List.length_map] at h1
  have hiff : compareSnapshots (some b) (some c) = [] ↔
      compareSnapshots (some c) (some b) = [] := by
    constructor <;> intro h
    · have h2 := hLen
      rw [h] at h2
      exact List.length_eq_zero.mp h2.symm
    · have h2 := hLen
      rw [h] at h2
      exact List.length_eq_zero.mp h2
  refine ⟨hperm, hiff, ?_, ?_, removed_eq_swap_filter s⟩
  · have h1 := severityOf_perm hperm.symm
    rw [h1, severityOf_map_swap]
  · have hct : ∀ x y : PageSnapshot,
        (pageResult u (some x) (some y)).changeType = .unchanged ↔
          compareSnapshots (some x) (some y) = [] := by
      intro x y
      by_cases h : compareSnapshots (some x) (some y) = [] <;>
        simp [pageResult, h]
    rw [hct, hct]
    exact hiff

/-- Witness for C4 (amended) at concrete snapshots differing in
title. -/
theorem comparison_inversion_witness :
    ((compareSnapshots (some ⟨"u", some "A", none, none, [], [], []⟩)
        (some ⟨"u", some "B", none, none, [], [], []⟩)).map
      swapChange).Perm
      (compareSnapshots (some ⟨"u", some "B", none, none, [], [], []⟩)
        (some ⟨"u", some "A", none, none, [], [], []⟩)) :=
  (comparison_inversion ⟨"u", some "A", none, none, [], [], []⟩
    ⟨"u", some "B", none, none, [], [], []⟩
    ⟨"u", none, none, none, [], [], []⟩ "u" (by simp) (by simp)).1

/-! ## Claim C5 — severity of a comparison result -/

theorem severityOf_cons (c : FieldChange) (cs : List FieldChange) :
    severityOf (c :: cs) = maxImpact c.impact (severityOf cs) := by
  cases hc : c.impact
  · by_cases hh : cs.any (fun x => x.impact == Impact.high) = true
    · simp [severityOf, hc, hh, maxImpact, impactRank]
    · by_cases hm : cs.any (fun x => x.impact == Impact.medium) = true <;>
        simp [severityOf, hc, hh, hm, maxImpact, impactRank]
  · by_cases hh : cs.any (fun x => x.impact == Impact.high) = true
    · simp [severityOf, hc, hh, maxImpact, impactRank]
    · by_cases hm : cs.any (fun x => x.impact == Impact.medium) = true <;>
        simp [severityOf, hc, hh, hm, maxImpact, impactRank]
  · by_cases hh : cs.any (fun x => x.impact == Impact.high) = true
    · simp [severityOf, hc, hh, maxImpact, impactRank]
    · by_cases hm : cs.any (fun x => x.impact == Impact.medium) = true <;>
        simp [severityOf, hc, hh, hm, maxImpact, impactRank]

theorem severityOf_eq_foldr (cs : List FieldChange) :
    severityOf cs = (cs.map (fun c => c.impact)).foldr maxImpact .low := by
  induction cs with
  | nil => rfl
  | cons c rest ih => rw [severityOf_cons, ih]; rfl

/-- Counterexample to claim C5: a page present and identical in both
runs yields a PageComparisonResult with an empty change list whose
severity is the value `low` — not absent; the TS `PageComparisonResult`
type gives `severity` no absent case and the loop always assigns it. -/
theorem pageResult_empty_changes_cex :
    (pageResult "u" (some ⟨"u", none, none, none, [], [], []⟩)
        (some ⟨"u", none, none, none, [], [], []⟩)).changes = [] ∧
    (pageResult "u" (some ⟨"u", none, none, none, [], [], []⟩)
        (some ⟨"u", none, none, none, [], [], []⟩)).severity = .low ∧
    (pageResult "u" (some ⟨"u", none, none, none, [], [], []⟩)
        (some ⟨"u", none, none, none, [], [], []⟩)).changeType =
      .unchanged := by
  decide

/-- Claim C5 (amended): the severity of every produced
PageComparisonResult is the join of its FieldChange impacts under the
order high > medium > low — hence the maximum impact when the change
list is non-empty, and the value `low` (not an absent severity) when
the change list is empty. -/
theorem pageResult_severity_spec (url : String)
    (bs cs : Option PageSnapshot) :
    (pageResult url bs cs).severity =
      ((pageResult url bs cs).changes.map (fun c => c.impact)).foldr
        maxImpact .low ∧
    ((pageResult url bs cs).changes = [] →
      (pageResult url bs cs).severity = .low) := by
  constructor
  · simpa [pageResult] using severityOf_eq_foldr (compareSnapshots bs cs)
  · intro h
    simp only [pageResult] at h ⊢
    rw [h]
    rfl

/-- Witness for C5 (amended) at a concrete identical pair. -/
theorem pageResult_severity_spec_witness :
    (pageResult "w" (some ⟨"w", some "t", none, none, [], [], []⟩)
        (some ⟨"w", some "t", none, none, [], [], []⟩)).severity = .low :=
  (pageResult_severity_spec "w" (some ⟨"w", some "t", none, none, [], [], []⟩)
    (some ⟨"w", some "t", none, none, [], [], []⟩)).2 (by decide)

/-! ## Claim C10 — deepMerge -/

theorem getField_setKey_ne (l : List (String × JVal)) (k : String)
    (v : JVal) (k' : String) (h : k ≠ k') :
    getField (setKey l k v) k' = getField l k' := by
  induction l with
  | nil => simp [setKey, getField, h]
  | cons a rest ih =>
    by_cases ha : a.1 = k
    · simp only [setKey, getField, ha, if_pos rfl]
      simp [getField, h, ha]
    · simp only [setKey, getField, if_neg ha]
      by_cases ha' : a.1 = k'
      · simp [getField, ha']
      · simp [getField, ha', ih]

theorem applyUpdates_getField_not_mem
    (acc : List (String × JVal)) (us : List (String × Option JVal))
    (k : String) (h : k ∉ us.map Prod.fst) :
    getField (applyUpdates acc us) k = getField acc k := by
  induction us generalizing acc with
  | nil => rfl
  | cons a rest ih =>
    have hne : a.1 ≠ k := by
      intro hk
      exact h (by simp [hk])
    have hrest : k ∉ rest.map Prod.fst := by
      intro hk
      exact h (by simp [hk])
    obtain ⟨k0, v0⟩ := a
    cases v0 with
    | none => simpa [applyUpdates] using ih _ hrest
    | some w =>
      simp only [applyUpdates]
      rw [ih _ hrest, getField_setKey_ne _ _ _ _ hne]

theorem applyUpdates_getField_nullkey
    (acc : List (String × JVal)) (us : List (String × Option JVal))
    (k : String) (hnd : (us.map Prod.fst).Nodup)
    (hmem : (k, (none : Option JVal)) ∈ us) :
    getField (applyUpdates acc us) k = getField acc k := by
  induction us generalizing acc with
  | nil => cases hmem
  | cons a rest ih =>
    obtain ⟨k0, v0⟩ := a
    have hnd' : (rest.map Prod.fst).Nodup := (List.nodup_cons.mp hnd).2
    have hhead : k0 ∉ rest.map Prod.fst := (List.nodup_cons.mp hnd).1
    rcases List.mem_cons.mp hmem with heq | hrest
    · cases heq
      simp only [applyUpdates]
      exact applyUpdates_getField_not_mem acc rest k hhead
    · have hk0 : k0 ≠ k := by
        intro h
        exact hhead (h ▸ List.mem_map_of_mem Prod.fst hrest)
      cases v0 with
      | none => simpa [applyUpdates] using ih acc hnd' hrest
      | some w =>
        simp only [applyUpdates]
        rw [ih _ hnd' hrest, getField_setKey_ne _ _ _ _ hk0]

theorem deepMerge_obj_obj (tf sf : List (String × JVal)) :
    deepMerge (.obj tf) (.obj sf) =
      .obj (applyUpdates tf
        (sf.attach.map (fun x =>
          (x.1.1,
            if isNullish x.1.2 then none
            else if isPlainObj x.1.2 then
              some (deepMerge (targetChild (.obj tf) x.1.1) x.1.2)
            else some x.1.2)))) := by
  rw [deepMerge]
  rfl

theorem updates_keys (t : JVal) (sf : List (String × JVal)) :
    (sf.attach.map (fun x =>
      ((x.1.1 : String),
        if isNullish x.1.2 then (none : Option JVal)
        else if isPlainObj x.1.2 then
          some (deepMerge (targetChild t x.1.1) x.1.2)
        else some x.1.2))).map Prod.fst = sf.map Prod.fst := by
  rw [List.map_map]
  exact List.attach_map_val sf (fun e => e.1)

/-- Claim C10: in `deepMerge(t, s)` every key whose value in `s` is
null or undefined keeps the value from `t` (JS object keys are unique,
hence the Nodup hypothesis); merging with the empty override object is
the identity on objects; and an array value in `s` replaces the target
wholesale. -/
theorem deepMerge_spec (tf sf : List (String × JVal)) (k : String)
    (v : JVal) (hnd : (sf.map Prod.fst).Nodup) (hmem : (k, v) ∈ sf)
    (hv : isNullish v = true) :
    getField (objFields (deepMerge (.obj tf) (.obj sf))) k =
      getField tf k ∧
    deepMerge (.obj tf) (.obj []) = .obj tf ∧
    (∀ (t : JVal) (l : List JVal), deepMerge t (.arr l) = .arr l) := by
  refine ⟨?_, ?_, ?_⟩
  · rw [deepMerge_obj_obj]
    simp only [objFields]
    apply applyUpdates_getField_nullkey
    · rw [updates_keys]
      exact hnd
    · refine List.mem_map.mpr ⟨⟨(k, v), hmem⟩, List.mem_attach _ _, ?_⟩
      simp [hv]
  · rw [deepMerge_obj_obj]
    rfl
  · intro t l
    cases t <;> simp [deepMerge, isNullish, isObjType]

/-! ## Claim C2 — job-row invariants -/

/-- Counterexample to claim C2: the freshly created job satisfies all
three invariants, but cancelling it (allowed from `queued` by
`cancelJob`'s status guard) yields a `cancelled` row whose `started_at`
is still NULL — the `started_at` biconditional fails. -/
theorem cancelJob_queued_invariant_cex :
    jobInvariants initialJob ∧
    (cancelJob 5 initialJob).status = .cancelled ∧
    (cancelJob 5 initialJob).started_at = none ∧
    ¬ jobInvariants (cancelJob 5 initialJob) := by
  refine ⟨?_, rfl, rfl, ?_⟩
  · simp [jobInvariants, initialJob]
  · intro h
    obtain ⟨h1, -, -⟩ := h
    simp [cancelJob, initialJob] at h1

theorem batchProgress_le (processed total : Nat) (hp : processed ≤ total)
    (ht : 0 < total) : batchProgress processed total ≤ 75 := by
  unfold batchProgress
  have h1 : processed * 50 ≤ total * 50 := Nat.mul_le_mul_right 50 hp
  have h2 : processed * 50 / total ≤ total * 50 / total :=
    Nat.div_le_div_right h1
  have h3 : total * 50 / total = 50 := by
    rw [Nat.mul_comm]
    exact Nat.mul_div_cancel 50 ht
  omega

theorem jobStep_preserves {j b : Job} (hstep : JobStep j b)
    (ih : jobInvariantsAmended j ∧ jobProgressBound j) :
    jobInvariantsAmended b ∧ jobProgressBound b := by
  obtain ⟨⟨ic, ip, is0, iq⟩, ibc, ibn⟩ := ih
  cases hstep with
    | lease now =>
      by_cases hs : j.status = .queued
      · have hcnone : j.completed_at = none := by
          cases hca : j.completed_at with
          | none => rfl
          | some t =>
            have h2 := ic.mp (by simp [hca])
            rw [hs] at h2
            simp at h2
        refine ⟨⟨?_, ?_, ?_, ?_⟩, ?_, ?_⟩ <;>
          simp [leaseJob, hs, hcnone]
      · have hid : leaseJob now j = j := by simp [leaseJob, hs]
        rw [hid]
        exact ⟨⟨ic, ip, is0, iq⟩, ibc, ibn⟩
    | beginRun now _ hg =>
      have hcnone : j.completed_at = none := by
        cases hca : j.completed_at with
        | none => rfl
        | some t =>
          have h2 := ic.mp (by simp [hca])
          rcases hg with hq | hr
          · rw [hq] at h2
            simp at h2
          · rw [hr] at h2
            simp at h2
      refine ⟨⟨?_, ?_, ?_, ?_⟩, ?_, ?_⟩ <;>
        cases hsa : j.started_at <;>
          simp [updateJobStatus, hcnone, hsa]
    | progDiscovery now _ hg =>
      have hcnone : j.completed_at = none := by
        cases hca : j.completed_at with
        | none => rfl
        | some t =>
          have h2 := ic.mp (by simp [hca])
          rw [hg] at h2
          simp at h2
      refine ⟨⟨?_, ?_, ?_, ?_⟩, ?_, ?_⟩ <;>
        cases hsa : j.started_at <;>
          simp [updateJobStatus, hcnone, hsa]
    | progBatch now processed total _ hg hp ht =>
      have hcnone : j.completed_at = none := by
        cases hca : j.completed_at with
        | none => rfl
        | some t =>
          have h2 := ic.mp (by simp [hca])
          rw [hg] at h2
          simp at h2
      have hb := batchProgress_le processed total hp ht
      refine ⟨⟨?_, ?_, ?_, ?_⟩, ?_, ?_⟩ <;>
        cases hsa : j.started_at <;>
          simp [updateJobStatus, hcnone, hsa] <;>
          omega
    | progPersist now _ hg =>
      have hcnone : j.completed_at = none := by
        cases hca : j.completed_at with
        | none => rfl
        | some t =>
          have h2 := ic.mp (by simp [hca])
          rw [hg] at h2
          simp at h2
      refine ⟨⟨?_, ?_, ?_, ?_⟩, ?_, ?_⟩ <;>
        cases hsa : j.started_at <;>
          simp [updateJobStatus, hcnone, hsa]
    | complete now _ hg =>
      have hst : j.started_at.isSome := is0 (Or.inl hg)
      refine ⟨⟨?_, ?_, ?_, ?_⟩, ?_, ?_⟩ <;>
        simp [updateJobStatus, hst]
    | fail now msg _ hg =>
      have hst : j.started_at.isSome := is0 (Or.inl hg)
      refine ⟨⟨?_, ?_, ?_, ?_⟩, ?_, ?_⟩ <;>
        simp [updateJobStatus, hst]
    | cancel now =>
      by_cases hs : j.status = .queued ∨ j.status = .running
      · have h75 : j.progress ≤ 75 := by
          apply ibn
          rcases hs with h | h <;> simp [h]
        have hne : j.progress ≠ 100 := by omega
        refine ⟨⟨?_, ?_, ?_, ?_⟩, ?_, ?_⟩ <;>
          simp [cancelJob, hs, hne]
        omega
      · have hid : cancelJob now j = j := by simp [cancelJob, hs]
        rw [hid]
        exact ⟨⟨ic, ip, is0, iq⟩, ibc, ibn⟩
    | reap now stuckCutoff =>
      cases hsa : j.started_at with
      | none =>
        have hid : reapOne now stuckCutoff j = j := by simp [reapOne, hsa]
        rw [hid]
        exact ⟨⟨ic, ip, is0, iq⟩, ibc, ibn⟩
      | some t =>
        by_cases hc : j.status = .running ∧ t < stuckCutoff
        · have h75 : j.progress ≤ 75 := by
            apply ibn
            simp [hc.1]
          have hne : j.progress ≠ 100 := by omega
          refine ⟨⟨?_, ?_, ?_, ?_⟩, ?_, ?_⟩ <;>
            simp [reapOne, hsa, hc, hne]
          omega
        · have hid : reapOne now stuckCutoff j = j := by simp [reapOne, hsa, hc]
          rw [hid]
          exact ⟨⟨ic, ip, is0, iq⟩, ibc, ibn⟩
    | retry _ _ hok =>
      by_cases h1 : j.retry_count ≥ j.max_retries
      · simp [retryFailedJob, h1] at hok
      · by_cases h2 : j.status = .failed
        · simp [retryFailedJob, h1, h2] at hok
          subst hok
          simp [jobInvariantsAmended, jobProgressBound]
        · simp [retryFailedJob, h1, h2] at hok
          subst hok
          exact ⟨⟨ic, ip, is0, iq⟩, ibc, ibn⟩

theorem reachable_strong (j : Job) (h : ReachableJob j) :
    jobInvariantsAmended j ∧ jobProgressBound j := by
  induction h with
  | init => simp [jobInvariantsAmended, jobProgressBound, initialJob]
  | step hR hstep ih => exact jobStep_preserves hstep ih

/-- Claim C2 (amended): every job row reachable from creation through
the modelled sequential operations (lease, begin-run, progress updates,
completion, failure, reaper timeout, cancellation, retry) satisfies:
`completed_at` set iff status is terminal; `progress = 100` iff status
is completed; `started_at` set whenever status ∈ {running, completed,
failed} and unset while queued.  The original `started_at` iff fails
only for jobs cancelled straight from `queued` (see the
counterexample). -/
theorem job_lifecycle_invariants (j : Job) (h : ReachableJob j) :
    jobInvariantsAmended j :=
  (reachable_strong j h).1

/-- Witness for C2 (amended): the invariants hold after leasing the
fresh job. -/
theorem job_lifecycle_invariants_witness :
    jobInvariantsAmended (leaseJob 5 initialJob) :=
  job_lifecycle_invariants (leaseJob 5 initialJob)
    (ReachableJob.step ReachableJob.init (JobStep.lease 5 initialJob))

/-! ## Claim C3 — include/exclude pattern logic -/

/-- Claim C3: `matchesPatterns(url, I, E)` is false when some exclude
pattern matches; otherwise it is true when `I` is empty, and otherwise
true exactly when some enabled include pattern matches — and the result
is invariant under permutations of the include list. -/
theorem matchesPatterns_spec (url : String) (I : List PatternConfig)
    (E : List String) :
    (matchesPatterns url I E = true ↔
      ((∀ p ∈ E, matchesPattern url p = false) ∧
       (I = [] ∨ ∃ pc ∈ I, pc.enabled = true ∧
          matchesPattern url pc.pattern = true))) ∧
    (∀ I' : List PatternConfig, I.Perm I' →
      matchesPatterns url I E = matchesPatterns url I' E) := by
  constructor
  · unfold matchesPatterns
    by_cases hE : E.any (fun p => matchesPattern url p) = true
    · simp only [hE, if_true]
      constructor
      · intro h
        cases h
      · rintro ⟨hall, -⟩
        obtain ⟨p, hp, hm⟩ := List.any_eq_true.mp hE
        rw [hall p hp] at hm
        cases hm
    · have hEfalse : ∀ p ∈ E, matchesPattern url p = false := by
        intro p hp
        by_contra hc
        exact hE (List.any_eq_true.mpr ⟨p, hp, by simpa using hc⟩)
      rw [if_neg hE]
      by_cases hI : I.isEmpty
      · have hInil : I = [] := List.isEmpty_iff.mp hI
        subst hInil
        rw [if_pos hI]
        constructor
        · intro _
          exact ⟨hEfalse, Or.inl rfl⟩
        · intro _
          rfl
      · have hne : I ≠ [] := fun h => hI (by simp [h])
        rw [if_neg hI]
        rw [List.any_eq_true]
        constructor
        · rintro ⟨pc, hmem, hcond⟩
          have h12 : pc.enabled = true ∧ matchesPattern url pc.pattern = true := by
            simpa using hcond
          exact ⟨hEfalse, Or.inr ⟨pc, hmem, h12.1, h12.2⟩⟩
        · rintro ⟨-, hI2⟩
          rcases hI2 with h | ⟨pc, hmem, h1, h2⟩
          · exact absurd h hne
          · exact ⟨pc, hmem, by simp [h1, h2]⟩
  · intro I' hperm
    unfold matchesPatterns
    by_cases hE : E.any (fun p => matchesPattern url p) = true
    · simp [hE]
    · have h1 : I.isEmpty = I'.isEmpty := by
        cases I <;> cases I' <;> simp_all [List.Perm.nil_eq, List.Perm]
      have h2 : I.any (fun pc => pc.enabled && matchesPattern url pc.pattern) =
          I'.any (fun pc => pc.enabled && matchesPattern url pc.pattern) := by
        rw [Bool.eq_iff_iff, List.any_eq_true, List.any_eq_true]
        constructor
        · rintro ⟨pc, hmem, hc⟩
          exact ⟨pc, hperm.mem_iff.mp hmem, hc⟩
        · rintro ⟨pc, hmem, hc⟩
          exact ⟨pc, hperm.mem_iff.mpr hmem, hc⟩
      simp only [if_neg hE]
      rw [h1, h2]

/-- Witness for C3 at a two-element include list and its swap. -/
theorem matchesPatterns_spec_witness :
    matchesPatterns "http://e/x" [⟨"a", true⟩, ⟨"x", true⟩] [] =
      matchesPatterns "http://e/x" [⟨"x", true⟩, ⟨"a", true⟩] [] :=
  (matchesPatterns_spec "http://e/x" [⟨"a", true⟩, ⟨"x", true⟩] []).2
    [⟨"x", true⟩, ⟨"a", true⟩] (List.Perm.swap _ _ _)

/-! ## Claim C6 — glob-to-regex translation -/

theorem globFits_star_iff (p s : List Char) :
    GlobFits ('*' :: p) s ↔
      ∃ pre suf, s = pre ++ suf ∧ (∀ c ∈ pre, jsDotMatches c = true) ∧
        GlobFits p suf := by
  constructor
  · intro h
    induction s with
    | nil =>
      cases h with
      | starNil h' => exact ⟨[], [], rfl, by simp, h'⟩
    | cons c s' ih =>
      cases h with
      | starNil h' => exact ⟨[], c :: s', rfl, by simp, h'⟩
      | starCons hj h' =>
        obtain ⟨pre, suf, heq, hall, hg⟩ := ih h'
        refine ⟨c :: pre, suf, by rw [heq]; rfl, ?_, hg⟩
        intro d hd
        rcases List.mem_cons.mp hd with hd | hd
        · rw [hd]
          exact hj
        · exact hall d hd
      | lit h1 h2 h3 h4 => exact absurd rfl h1
  · rintro ⟨pre, suf, rfl, hall, hg⟩
    revert hall
    induction pre with
    | nil =>
      intro _
      exact GlobFits.starNil hg
    | cons c pre' ih =>
      intro hall
      exact GlobFits.starCons (hall c (List.mem_cons_self c pre'))
        (ih fun d hd => hall d (List.mem_cons_of_mem c hd))

theorem rmatch_glob (p : List Char) :
    ∀ s, rmatchFull (translateGlob p) s = true ↔ GlobFits p s := by
  induction p with
  | nil =>
    intro s
    constructor
    · intro h
      cases s with
      | nil => exact GlobFits.nil
      | cons c s' => simp [rmatchFull, translateGlob] at h
    · intro h
      cases h
      rfl
  | cons c p' ih =>
    intro s
    by_cases hstar : c = '*'
    · subst hstar
      have ht : translateGlob ('*' :: p') = .star :: translateGlob p' := by
        simp [translateGlob]
      rw [ht]
      show ((List.range (s.length + 1)).any fun k =>
        (s.take k).all jsDotMatches &&
          rmatchFull (translateGlob p') (s.drop k)) = true ↔ _
      rw [List.any_eq_true, globFits_star_iff]
      constructor
      · rintro ⟨k, _, hkm⟩
        rw [Bool.and_eq_true] at hkm
        refine ⟨s.take k, s.drop k, (List.take_append_drop k s).symm,
          ?_, (ih _).mp hkm.2⟩
        intro c hc
        exact List.all_eq_true.mp hkm.1 c hc
      · rintro ⟨pre, suf, heq, hall, hg⟩
        refine ⟨pre.length, ?_, ?_⟩
        · rw [List.mem_range]
          have hple : pre.length ≤ s.length := by
            rw [heq, List.length_append]
            omega
          omega
        · rw [Bool.and_eq_true]
          refine ⟨?_, ?_⟩
          · rw [heq, List.take_left]
            exact List.all_eq_true.mpr hall
          · rw [heq, List.drop_left]
            exact (ih suf).mpr hg
    · by_cases hq : c = '?'
      · subst hq
        have ht : translateGlob ('?' :: p') = .anyc :: translateGlob p' := by
          simp [translateGlob]
        rw [ht]
        cases s with
        | nil =>
          constructor
          · intro h
            simp [rmatchFull] at h
          · intro h
            cases h
        | cons x xs =>
          show (jsDotMatches x && rmatchFull (translateGlob p') xs) =
            true ↔ _
          rw [Bool.and_eq_true, ih xs]
          constructor
          · rintro ⟨hj, h⟩
            exact GlobFits.qmark hj h
          · intro h
            cases h with
            | qmark hj h' => exact ⟨hj, h'⟩
            | lit h1 h2 h3 h4 => exact absurd rfl h2
      · by_cases hd : c = '.'
        · subst hd
          have ht : translateGlob ('.' :: p') = .anyc :: translateGlob p' := by
            simp [translateGlob, hq]
          rw [ht]
          cases s with
          | nil =>
            constructor
            · intro h
              simp [rmatchFull] at h
            · intro h
              cases h
          | cons x xs =>
            show (jsDotMatches x && rmatchFull (translateGlob p') xs) =
              true ↔ _
            rw [Bool.and_eq_true, ih xs]
            constructor
            · rintro ⟨hj, h⟩
              exact GlobFits.dot hj h
            · intro h
              cases h with
              | dot hj h' => exact ⟨hj, h'⟩
              | lit h1 h2 h3 h4 => exact absurd rfl h3
        · have ht : translateGlob (c :: p') = .lit c :: translateGlob p' := by
            simp [translateGlob, hstar, hq, hd]
          rw [ht]
          cases s with
          | nil =>
            constructor
            · intro h
              simp [rmatchFull] at h
            · intro h
              cases h with
              | starNil h' => exact absurd rfl hstar
          | cons x xs =>
            show (x == c && rmatchFull (translateGlob p') xs) = true ↔ _
            constructor
            · intro h
              have hx : x = c := by
                have := (Bool.and_eq_true _ _) ▸ h
                exact eq_of_beq this.1
              subst hx
              exact GlobFits.lit hstar hq hd ((ih xs).mp
                (by
                  have := (Bool.and_eq_true _ _) ▸ h
                  exact this.2))
            · intro h
              cases h with
              | lit h1 h2 h3 h4 =>
                simp only [beq_self_eq_true, Bool.true_and]
                exact (ih xs).mpr h4
              | qmark _ _ => exact absurd rfl hq
              | dot _ _ => exact absurd rfl hd
              | starNil h' => exact absurd rfl hstar
              | starCons _ _ => exact absurd rfl hstar

/-- Counterexample to claim C6: the translated expression is neither
escaped nor anchored.  `claimGlobMatch` is the matcher the claim
describes (anchored, dots literal): under it "a.c" does not match
"axc" and "b" does not match "abc", yet `matchesPattern` accepts
both. -/
theorem matchesPattern_claim_cex :
    matchesPattern "axc" "a.c" = true ∧
    claimGlobMatch ("a.c".data) ("axc".data) = false ∧
    matchesPattern "abc" "b" = true ∧
    claimGlobMatch ("b".data) ("abc".data) = false := by
  decide

/-- Claim C6 (amended): the translation maps `*` to `.*` and `?` to
`.` and leaves every other character unchanged — nothing is escaped
and nothing is anchored, so a `.` in a pattern is the regex
any-character and every other regex metacharacter keeps its regex
meaning in the source.  For urls of basic-plane characters and
patterns built only from `*`, `?`, `.` and literal characters that
are not regex metacharacters (`globSafeChar`), the unanchored
`RegExp.test` search means: the pattern matches the url exactly when
some contiguous substring of the url fits the glob, where `?` and `.`
match any single non-line-terminator character and `*` any run of
such characters. -/
theorem matchesPattern_spec (url pat : String)
    (_hurl : ∀ c ∈ url.data, c.toNat < 65536)
    (_hpat : ∀ c ∈ pat.data, globSafeChar c = true) :
    matchesPattern url pat = true ↔
      ∃ pre mid post : List Char,
        url.data = pre ++ mid ++ post ∧ GlobFits pat.data mid := by
  unfold matchesPattern
  rw [List.any_eq_true]
  constructor
  · rintro ⟨suf, hsuf, hin⟩
    obtain ⟨mid, hmid, hm⟩ := List.any_eq_true.mp hin
    obtain ⟨pre, hpre⟩ := (List.mem_tails _ _).mp hsuf
    obtain ⟨post, hpost⟩ := (List.mem_inits _ _).mp hmid
    refine ⟨pre, mid, post, ?_, (rmatch_glob _ _).mp hm⟩
    rw [← hpre, ← hpost, List.append_assoc]
  · rintro ⟨pre, mid, post, heq, hg⟩
    refine ⟨mid ++ post, ?_, ?_⟩
    · exact (List.mem_tails _ _).mpr ⟨pre, by rw [heq, List.append_assoc]⟩
    · exact List.any_eq_true.mpr ⟨mid, (List.mem_inits _ _).mpr ⟨post, rfl⟩,
        (rmatch_glob _ _).mpr hg⟩

/-- Witness for C6 (amended): a metacharacter-free pattern with all
three glob characters against an ASCII url. -/
theorem matchesPattern_spec_witness :
    (∀ c ∈ ("xaycz" : String).data, c.toNat < 65536) ∧
    (∀ c ∈ ("a?c*" : String).data, globSafeChar c = true) ∧
    (matchesPattern "xaycz" "a?c*" = true ↔
      ∃ pre mid post : List Char,
        ("xaycz" : String).data = pre ++ mid ++ post ∧
          GlobFits ("a?c*" : String).data mid) :=
  ⟨by decide, by decide,
    matchesPattern_spec "xaycz" "a?c*" (by decide) (by decide)⟩

/-! ## Claim C8 — breadcrumb JSON-LD precedence -/

/-- Witness for C10 at a one-key object overridden by null. -/
theorem deepMerge_spec_witness :
    getField (objFields (deepMerge (.obj [("a", .num 1)])
        (.obj [("a", .null)]))) "a" = some (.num 1) :=
  (deepMerge_spec [("a", .num 1)] [("a", .null)] "a" .null
    (by simp) (List.mem_singleton.mpr rfl) rfl).1.trans rfl

end WebMonitor
